import Mathlib

/-!
Shallow embedding of the betting-round state machine of
`src/backend/game/poker_game.py` (class `PokerGame`) together with the
enums of `src/backend/models/game_state.py`.

Modelling conventions:
* Python `int` chip quantities (stacks, bets, pot, blinds, amounts) are
  embedded as `Int`; seat indices are `Nat` and follow the source's
  `% len(self.players)` arithmetic.
* Player ids are opaque `uuid4` strings in the source and are used only
  for equality tests; they are embedded as `Nat`.  The `hand_id` field
  and the timestamp recorded in `action_history` entries are dropped:
  no engine logic reads them.
* `random.shuffle` is nondeterministic, so `start_new_hand` takes the
  shuffled deck contents as an explicit argument.
* Python exceptions are modelled by threading the state: every fallible
  operation returns `GameState × Option String`, where the first
  component is the state exactly as mutated up to the `raise` point and
  the second is `some msg` for `raise ValueError(msg)`.
* The unbounded `while` loop in `_advance_phase` is given fuel
  `players.length + 1`; when the fuel runs out (a situation in which the
  Python source loops forever, unreachable from `_advance_action`) the
  embedding returns the current index.  The bounded skip loop in
  `_advance_action` carries its `attempts` counter exactly as in source.
-/

namespace PokerTrainer

/-- `GamePhase` enum of `models/game_state.py`. -/
inductive GamePhase where
  | waiting
  | preflop
  | flop
  | turn
  | river
  | showdown
  | finished
deriving DecidableEq

/-- `ActionType` enum of `models/game_state.py`. -/
inductive ActionType where
  | fold
  | check
  | call
  | raise
  | bet
  | all_in
deriving DecidableEq

/-- `Card` of `poker_game.py`: rank and suit characters. -/
structure Card where
  rank : String
  suit : String
deriving DecidableEq

def cardRanks : List String :=
  ["2", "3", "4", "5", "6", "7", "8", "9", "T", "J", "Q", "K", "A"]

def cardSuits : List String := ["c", "d", "h", "s"]

/-- The 52 cards a fresh `Deck()` holds (order before shuffling). -/
def fullDeck : List Card :=
  cardSuits.flatMap (fun s => cardRanks.map (fun r => { rank := r, suit := s }))

/-- `Player` of `poker_game.py`. -/
structure Player where
  player_id : Nat
  name : String
  stack : Int
  position : Nat
  hole_cards : List Card
  bet : Int
  is_active : Bool
  has_folded : Bool
  is_all_in : Bool
deriving DecidableEq

def defaultPlayer : Player :=
  { player_id := 0, name := "", stack := 0, position := 0, hole_cards := [],
    bet := 0, is_active := true, has_folded := false, is_all_in := false }

/-- One entry of `action_history` (timestamp dropped). -/
structure ActionRecord where
  player_id : Nat
  action : ActionType
  amount : Int
deriving DecidableEq

/-- The mutable fields of class `PokerGame`. -/
structure GameState where
  table_id : String
  max_players : Nat
  small_blind : Int
  big_blind : Int
  starting_stack : Int
  players : List Player
  deck : List Card
  community_cards : List Card
  pot : Int
  current_bet : Int
  last_raise_size : Int
  phase : GamePhase
  dealer_position : Nat
  current_player_index : Nat
  betting_round_start_index : Nat
  last_raiser_index : Option Nat
  bb_has_acted_preflop : Bool
  action_history : List ActionRecord
deriving DecidableEq

/-- `Deck.deal`: first `n` cards and the rest, or the `ValueError`. -/
def deckDeal (cards : List Card) (n : Nat) : Except String (List Card × List Card) :=
  if n > cards.length then .error "Not enough cards in deck"
  else .ok (cards.take n, cards.drop n)

/-- `Player.reset_for_new_hand`. -/
def reset_for_new_hand (p : Player) : Player :=
  { p with hole_cards := [], bet := 0, has_folded := false, is_all_in := false,
           is_active := if p.stack > 0 then true else p.is_active }

/-- `PokerGame._post_blinds`. -/
def post_blinds (g : GameState) : GameState :=
  let active := g.players.filter (fun p => p.is_active)
  if active.length < 2 then g
  else
    let n := g.players.length
    let sb_index := (g.dealer_position + 1) % n
    let sb_player := g.players.getD sb_index defaultPlayer
    let sb_amount := min g.small_blind sb_player.stack
    let players1 := g.players.set sb_index
      { sb_player with stack := sb_player.stack - sb_amount, bet := sb_amount }
    let bb_index := (g.dealer_position + 2) % n
    let bb_player := players1.getD bb_index defaultPlayer
    let bb_amount := min g.big_blind bb_player.stack
    let players2 := players1.set bb_index
      { bb_player with stack := bb_player.stack - bb_amount, bet := bb_amount }
    { g with players := players2,
             pot := g.pot + sb_amount + bb_amount,
             current_bet := g.big_blind }

/-- The `for` loop of `PokerGame._deal_hole_cards`: deals 2 cards to each
active player in list order, stopping (with remaining players untouched)
at the first `Deck.deal` failure exactly as the Python exception would. -/
def dealHoleLoop : List Player → List Card → List Player × List Card × Option String
  | [], d => ([], d, none)
  | p :: rest, d =>
    if p.is_active then
      match deckDeal d 2 with
      | .error e => (p :: rest, d, some e)
      | .ok (cs, d') =>
        let r := dealHoleLoop rest d'
        ({ p with hole_cards := cs } :: r.1, r.2.1, r.2.2)
    else
      let r := dealHoleLoop rest d
      (p :: r.1, r.2.1, r.2.2)

/-- `PokerGame.start_new_hand`; `shuffled` is the content of the freshly
shuffled deck. -/
def start_new_hand (g : GameState) (shuffled : List Card) : GameState × Option String :=
  if g.players.length < 2 then (g, some "Need at least 2 players to start")
  else
    let g1 := { g with players := g.players.map reset_for_new_hand,
                       deck := shuffled,
                       community_cards := [],
                       pot := 0,
                       current_bet := 0,
                       phase := GamePhase.preflop,
                       action_history := [] }
    let g2 := { g1 with dealer_position := (g1.dealer_position + 1) % g1.players.length }
    let g3 := post_blinds g2
    let g4 := { g3 with last_raise_size := g3.big_blind, bb_has_acted_preflop := false }
    let r := dealHoleLoop g4.players g4.deck
    let g5 := { g4 with players := r.1, deck := r.2.1 }
    match r.2.2 with
    | some e => (g5, some e)
    | none =>
      let bb_index := (g5.dealer_position + 2) % g5.players.length
      ({ g5 with current_player_index := (g5.dealer_position + 3) % g5.players.length,
                 betting_round_start_index := bb_index,
                 last_raiser_index := some bb_index }, none)

/-- A seat that is neither folded nor all-in (the `active_players` filter
of `_advance_action` and `_is_betting_round_complete`). -/
def livePlayer (p : Player) : Bool :=
  !p.has_folded && !p.is_all_in

/-- `PokerGame._is_betting_round_complete`. -/
def is_betting_round_complete (g : GameState) : Bool :=
  let active := g.players.filter livePlayer
  if active.length = 0 then true
  else if active.length ≤ 1 then true
  else
    let all_matched := active.all (fun p => p.bet == g.current_bet)
    if !all_matched then false
    else
      let completion_index := g.last_raiser_index.getD g.betting_round_start_index
      let bb_index := (g.dealer_position + 2) % g.players.length
      if g.phase = GamePhase.preflop ∧ completion_index = bb_index ∧
          !g.bb_has_acted_preflop then false
      else if g.current_player_index = completion_index then true
      else false

/-- `PokerGame._complete_hand` (the transient `SHOWDOWN` assignment is
immediately overwritten by `FINISHED` in source; only the final value is
observable). -/
def complete_hand (g : GameState) : GameState :=
  match g.players.findIdx? (fun p => !p.has_folded) with
  | none => { g with phase := GamePhase.finished }
  | some wi =>
    let w := g.players.getD wi defaultPlayer
    { g with players := g.players.set wi { w with stack := w.stack + g.pot },
             pot := 0,
             phase := GamePhase.finished }

/-- The unbounded `while` loop of `_advance_phase` searching for the next
seat that is neither folded nor all-in, with fuel (see header note). -/
def findLive (ps : List Player) (idx : Nat) : Nat → Nat
  | 0 => idx
  | fuel + 1 =>
    let p := ps.getD idx defaultPlayer
    if p.has_folded ∨ p.is_all_in then findLive ps ((idx + 1) % ps.length) fuel
    else idx

/-- `PokerGame._advance_phase`. -/
def advance_phase (g : GameState) : GameState × Option String :=
  let g1 := { g with players := g.players.map (fun (p : Player) => { p with bet := 0 }),
                     current_bet := 0,
                     last_raise_size := 0,
                     last_raiser_index := none }
  let deal := fun (g2 : GameState) (n : Nat) (next : GamePhase) =>
    match deckDeal g2.deck n with
    | .error e => ({ g2 with phase := next }, some e)
    | .ok (cs, d) =>
      let g3 := { g2 with phase := next,
                          community_cards := g2.community_cards ++ cs,
                          deck := d }
      let start := (g3.dealer_position + 1) % g3.players.length
      let idx := findLive g3.players start (g3.players.length + 1)
      (({ g3 with current_player_index := idx,
                  betting_round_start_index := idx } : GameState), (none : Option String))
  match g1.phase with
  | GamePhase.preflop => deal g1 3 GamePhase.flop
  | GamePhase.flop => deal g1 1 GamePhase.turn
  | GamePhase.turn => deal g1 1 GamePhase.river
  | GamePhase.river => (complete_hand g1, none)
  | _ =>
    let start := (g1.dealer_position + 1) % g1.players.length
    let idx := findLive g1.players start (g1.players.length + 1)
    ({ g1 with current_player_index := idx,
               betting_round_start_index := idx }, none)

/-- The bounded skip loop of `_advance_action`: returns the final index
and the final `attempts` counter.  The fuel `ps.length + 1` is enough for
the source's own bound `attempts < len(self.players)` to fire, so this is
exactly the Python loop. -/
def skipLoop (ps : List Player) (idx attempts : Nat) : Nat → Nat × Nat
  | 0 => (idx, attempts)
  | fuel + 1 =>
    let p := ps.getD idx defaultPlayer
    if (p.has_folded ∨ p.is_all_in) ∧ attempts < ps.length then
      skipLoop ps ((idx + 1) % ps.length) (attempts + 1) fuel
    else (idx, attempts)

/-- `PokerGame._advance_action`. -/
def advance_action (g : GameState) : GameState × Option String :=
  let active := g.players.filter livePlayer
  if active.length ≤ 1 then (complete_hand g, none)
  else
    let n := g.players.length
    let idx0 := (g.current_player_index + 1) % n
    let r := skipLoop g.players idx0 0 (n + 1)
    let g1 := { g with current_player_index := r.1 }
    if r.2 ≥ n then (complete_hand g1, none)
    else if is_betting_round_complete g1 then advance_phase g1
    else (g1, none)

/-- Tail of `process_action` after the action branch: the preflop
big-blind bookkeeping, the `action_history` append, and
`_advance_action`. -/
def recordAndAdvance (g : GameState) (pid : Nat) (a : ActionType) (amount : Int) :
    GameState × Option String :=
  let g1 :=
    if g.phase = GamePhase.preflop then
      let bb_index := (g.dealer_position + 2) % g.players.length
      let bb_player := g.players.getD bb_index defaultPlayer
      if pid = bb_player.player_id then { g with bb_has_acted_preflop := true } else g
    else g
  let g2 := { g1 with action_history :=
                g1.action_history ++ [{ player_id := pid, action := a, amount := amount }] }
  advance_action g2

/-- Chip movement shared by accepted `RAISE`/`BET` actions (the tail of
the `RAISE`/`BET` branch of `process_action` after validation). -/
def applyWager (g : GameState) (pid : Nat) (a : ActionType) (amount : Int)
    (i : Nat) (p : Player) : GameState × Option String :=
  let bet_amount := min amount p.stack
  let p1 := { p with stack := p.stack - bet_amount, bet := p.bet + bet_amount }
  let g1 := { g with players := g.players.set i p1, pot := g.pot + bet_amount }
  let g2 :=
    if p1.bet > g.current_bet then
      { g1 with last_raise_size :=
                  if g.current_bet > 0 then p1.bet - g.current_bet else p1.bet,
                current_bet := p1.bet,
                last_raiser_index := some g.current_player_index }
    else g1
  let p2 := if p1.stack = 0 then { p1 with is_all_in := true } else p1
  let g3 := { g2 with players := g2.players.set i p2 }
  recordAndAdvance g3 pid a amount

/-- The shared `RAISE`/`BET` branch of `process_action`. -/
def processRaiseOrBet (g : GameState) (pid : Nat) (a : ActionType) (amount : Int)
    (i : Nat) (p : Player) : GameState × Option String :=
  if g.phase ≠ GamePhase.preflop ∧ a = ActionType.bet ∧ g.current_bet > 0 then
    (g, some "Cannot bet when someone has already bet. You must fold, call, or raise.")
  else if g.phase ≠ GamePhase.preflop ∧ a = ActionType.raise ∧ g.current_bet = 0 then
    (g, some "Cannot raise when no one has bet. You must check or bet.")
  else if g.current_bet > 0 then
    let min_raise_amount :=
      max (g.current_bet + (if g.last_raise_size > 0 then g.last_raise_size else g.big_blind))
          (g.current_bet * 2)
    if amount < min_raise_amount then
      (g, some ("Raise must be at least " ++ toString min_raise_amount))
    else applyWager g pid a amount i p
  else
    if amount < g.big_blind then
      (g, some ("Bet must be at least " ++ toString g.big_blind))
    else applyWager g pid a amount i p

/-- `PokerGame.process_action`. -/
def process_action (g : GameState) (pid : Nat) (a : ActionType) (amount : Int) :
    GameState × Option String :=
  match g.players.findIdx? (fun p => p.player_id == pid) with
  | none => (g, some "Player not found")
  | some i =>
    let p := g.players.getD i defaultPlayer
    if p.has_folded ∨ !p.is_active then (g, some "Player cannot act")
    else
      match a with
      | ActionType.fold =>
        if p.bet ≥ g.current_bet then
          (g, some "Cannot fold when you can check. You must check, bet, or raise.")
        else
          recordAndAdvance
            { g with players := g.players.set i { p with has_folded := true, is_active := false } }
            pid a amount
      | ActionType.check =>
        if p.bet < g.current_bet then (g, some "Cannot check, must call or raise")
        else if g.phase ≠ GamePhase.preflop ∧ g.current_bet > 0 then
          (g, some "Cannot check when someone has bet. You must fold, call, or raise.")
        else recordAndAdvance g pid a amount
      | ActionType.call =>
        if g.phase ≠ GamePhase.preflop ∧ g.current_bet = 0 then
          (g, some "Cannot call when no one has bet. You must check or bet.")
        else
          let call_amount := min (g.current_bet - p.bet) p.stack
          let p1 := { p with stack := p.stack - call_amount, bet := p.bet + call_amount }
          let p2 := if p1.stack = 0 then { p1 with is_all_in := true } else p1
          recordAndAdvance
            { g with players := g.players.set i p2, pot := g.pot + call_amount }
            pid a amount
      | ActionType.raise =>
        processRaiseOrBet g pid a amount i p
      | ActionType.bet =>
        processRaiseOrBet g pid a amount i p
      | ActionType.all_in =>
        let all_in_amount := p.stack
        let p1 := { p with stack := 0, bet := p.bet + all_in_amount, is_all_in := true }
        let g1 := { g with players := g.players.set i p1, pot := g.pot + all_in_amount }
        let g2 :=
          if p1.bet > g.current_bet then
            { g1 with last_raise_size :=
                        if g.current_bet > 0 then p1.bet - g.current_bet else p1.bet,
                      current_bet := p1.bet,
                      last_raiser_index := some g.current_player_index }
          else g1
        recordAndAdvance g2 pid a amount

/-!  Concrete scenario states, mirroring `PokerGame(table_id, 9, sb, bb,
stack)` followed by one `add_player` per requested seat (player ids are
the seat positions). -/

/-- A freshly seated player, as `add_player` creates it in the `WAITING`
phase (`Player.__init__` with `is_active = True`). -/
def mkSeat (pid : Nat) (stack : Int) : Player :=
  { player_id := pid, name := "p" ++ toString pid, stack := stack, position := pid,
    hole_cards := [], bet := 0, is_active := true, has_folded := false,
    is_all_in := false }

/-- A table in the `WAITING` phase with the given seat stacks, blinds
`sb`/`bb`, as built by the constructor plus `add_player` calls. -/
def initialGame (sb bb : Int) (seatStacks : List Int) : GameState :=
  { table_id := "table1", max_players := 9, small_blind := sb, big_blind := bb,
    starting_stack := 1000,
    players := (seatStacks.enum.map fun si => mkSeat si.1 si.2),
    deck := [], community_cards := [], pot := 0, current_bet := 0,
    last_raise_size := 0, phase := GamePhase.waiting, dealer_position := 0,
    current_player_index := 0, betting_round_start_index := 0,
    last_raiser_index := none, bb_has_acted_preflop := false,
    action_history := [] }

/-- The heads-up table of the spec scenarios: blinds 5/10, stacks 1000. -/
def huTable : GameState := initialGame 5 10 [1000, 1000]

/-- The heads-up table immediately after `start_new_hand` (the dealer
button moves to seat 1, so seat 0 is the small blind and seat 1 the big
blind, and seat 0 is first to act). -/
def huHand : GameState := (start_new_hand huTable fullDeck).1

/-- Seat 1 (the big blind) acting while it is seat 0's turn. -/
def huOutOfTurn : GameState × Option String :=
  process_action huHand 1 ActionType.check 0

/-- The small blind raising to 20 in the 5/10 heads-up hand. -/
def huRaise20 : GameState × Option String :=
  process_action huHand 0 ActionType.raise 20

/-- The small blind calling preflop. -/
def huCall : GameState × Option String :=
  process_action huHand 0 ActionType.call 0

/-- ... then the big blind checking. -/
def huCallCheck : GameState × Option String :=
  process_action huCall.1 1 ActionType.check 0

/-- The flop state the engine actually reaches in the heads-up hand: it
takes a further small-blind check after `huCallCheck` before the round
closes. -/
def huFlop : GameState := (process_action huCallCheck.1 0 ActionType.check 0).1

/-- The flop state with seat 0's stack shrunk to 7 chips, exactly as the
repository test `test_bet_minimum_big_blind_enforced_unless_short_all_in`
does before betting 7. -/
def huFlopShort : GameState :=
  { huFlop with players :=
      huFlop.players.set 0 { huFlop.players.getD 0 defaultPlayer with stack := 7 } }

/-- Seat 0 betting its entire 7-chip stack on the flop. -/
def shortBetResult : GameState × Option String :=
  process_action huFlopShort 0 ActionType.bet 7

/-- The preflop state with the small blind's remaining stack shrunk to 8,
so that a raise to a total of 13 consumes the whole stack. -/
def huShortSB : GameState :=
  { huHand with players :=
      huHand.players.set 0 { huHand.players.getD 0 defaultPlayer with stack := 8 } }

/-- Seat 0 raising to 13 (its entire stack: 5 posted + 8 behind). -/
def shortRaiseResult : GameState × Option String :=
  process_action huShortSB 0 ActionType.raise 13

/-- The small blind moving all-in preflop. -/
def huAllIn : GameState × Option String :=
  process_action huHand 0 ActionType.all_in 0

/-- Starting a hand where the big-blind seat owns only 3 chips. -/
def shortBB : GameState × Option String :=
  start_new_hand (initialGame 5 10 [1000, 3]) fullDeck

/-- Total chips in play: every seat's stack plus the pot. -/
def chipSum (g : GameState) : Int :=
  (g.players.map Player.stack).sum + g.pot

/-- The claimed seat invariant on a list of seats: every all-in seat has
an empty stack. -/
def invPlayers (l : List Player) : Prop :=
  ∀ p ∈ l, p.is_all_in = true → p.stack = 0

/-- The claimed seat invariant `isAllIn ⇒ stack == 0` on a game state. -/
def allInInv (g : GameState) : Prop :=
  invPlayers g.players

/-- Every all-in seat's bet is at most `current_bet` — true in every
reachable betting state, since a wager that pushes a seat's bet above
`current_bet` immediately raises `current_bet` to that bet. -/
def allInBetsMatched (g : GameState) : Prop :=
  ∀ p ∈ g.players, p.is_all_in = true → p.bet ≤ g.current_bet

/-- Number of seats still able to act: neither folded nor all-in. -/
def liveCount (l : List Player) : Nat :=
  (l.filter livePlayer).length

/-- The dealer position `start_new_hand` moves to. -/
def newDealer (g : GameState) : Nat :=
  (g.dealer_position + 1) % g.players.length

/-- The small-blind seat of the new hand (`newDealer + 1`). -/
def sbIndex (g : GameState) : Nat :=
  (newDealer g + 1) % g.players.length

/-- The big-blind seat of the new hand (`newDealer + 2`). -/
def bbIndex (g : GameState) : Nat :=
  (newDealer g + 2) % g.players.length

/-- The small blind actually posted: capped at the seat's stack. -/
def sbPosted (g : GameState) : Int :=
  min g.small_blind (g.players.getD (sbIndex g) defaultPlayer).stack

/-- The big blind actually posted: capped at the seat's stack. -/
def bbPosted (g : GameState) : Int :=
  min g.big_blind (g.players.getD (bbIndex g) defaultPlayer).stack

instance (l : List Player) : Decidable (invPlayers l) := by
  unfold invPlayers
  infer_instance

instance (g : GameState) : Decidable (allInInv g) := by
  unfold allInInv invPlayers
  infer_instance

instance (g : GameState) : Decidable (allInBetsMatched g) := by
  unfold allInBetsMatched
  infer_instance

/-- C1: for every game state in an active betting phase, an action
submitted by a seat other than `current_player_index` is claimed to fail
with `OutOfTurn` and leave the state unchanged.  The code has no turn
check at all: in the heads-up hand, with seat 0 to act, seat 1's check is
accepted (`None` error), the big-blind-option flag flips, the action is
recorded, and the turn even advances — the state changes.  The
repository's own test `test_out_of_turn_action_rejected` (expecting
`ValueError("Not your turn")`) fails on this code. -/
theorem C1_out_of_turn_not_rejected :
    huHand.phase = GamePhase.preflop ∧
    huHand.current_player_index = 0 ∧
    (huHand.players.getD 0 defaultPlayer).player_id = 0 ∧
    (huHand.players.getD 1 defaultPlayer).player_id = 1 ∧
    huOutOfTurn.2 = none ∧
    huOutOfTurn.1.bb_has_acted_preflop = true ∧
    huHand.bb_has_acted_preflop = false ∧
    huOutOfTurn.1 ≠ huHand := by
  decide

/-- C2: heads-up 5/10, stacks 1000, seat 0 (small blind, first to act)
raises to 20.  The claim (and the repository test
`test_raise_charges_only_additional_amount`) says stack 980, bet 20,
`current_bet` 20.  The code charges the full `amount` on top of the
already-posted blind: stack 975, bet 25, `current_bet` 25. -/
theorem C2_raise_overcharges :
    huHand.dealer_position = 1 ∧
    huHand.current_player_index = 0 ∧
    (huHand.players.getD 0 defaultPlayer).bet = 5 ∧
    (huHand.players.getD 0 defaultPlayer).stack = 995 ∧
    huRaise20.2 = none ∧
    (huRaise20.1.players.getD 0 defaultPlayer).stack = 975 ∧
    (huRaise20.1.players.getD 0 defaultPlayer).bet = 25 ∧
    huRaise20.1.current_bet = 25 ∧
    (huRaise20.1.players.getD 0 defaultPlayer).stack ≠ 980 := by
  decide

/-- C3: the claim (and the repository test
`test_bet_minimum_big_blind_enforced_unless_short_all_in`) says a bet or
raise that consumes the seat's entire remaining stack is accepted even
below the normal minimum.  The code has no such exception: a 7-chip
all-in bet on a flop with `current_bet = 0` is rejected with the
big-blind minimum message, and a raise to 13 by a seat whose whole stack
is consumed at 13 is rejected with the minimum-raise message.  Both
rejections leave the state unchanged. -/
theorem C3_short_all_in_rejected :
    huFlopShort.phase = GamePhase.flop ∧
    huFlopShort.current_bet = 0 ∧
    (huFlopShort.players.getD 0 defaultPlayer).stack = 7 ∧
    shortBetResult.2 = some "Bet must be at least 10" ∧
    shortBetResult.1 = huFlopShort ∧
    huShortSB.current_bet = 10 ∧
    (huShortSB.players.getD 0 defaultPlayer).stack = 8 ∧
    (huShortSB.players.getD 0 defaultPlayer).bet = 5 ∧
    shortRaiseResult.2 = some "Raise must be at least 20" ∧
    shortRaiseResult.1 = huShortSB := by
  decide

/-- C5: the claim (and the repository test
`test_bet_minimum_big_blind_enforced_unless_short_all_in`) says that
after the small blind calls and the big blind checks preflop the phase
becomes `Flop` with `current_bet` reset to 0.  In the code both actions
are accepted but the round-completion test runs only after the turn has
moved past the big blind, so the hand is still in `Preflop` with
`current_bet` 10 — the big blind's closing check does not close the
round. -/
theorem C5_call_check_stays_preflop :
    huCall.2 = none ∧
    huCallCheck.2 = none ∧
    huCallCheck.1.phase = GamePhase.preflop ∧
    huCallCheck.1.phase ≠ GamePhase.flop ∧
    huCallCheck.1.current_bet = 10 := by
  decide

/-- C6 counterexample: with blinds 5/10 and a big-blind seat owning only
3 chips, the posted big blind is short (3 < 10) but `_post_blinds` still
sets `current_bet` to the full big blind 10, not to the smaller posted
amount 3 as the claim states. -/
theorem C6_short_bb_counterexample :
    shortBB.2 = none ∧
    (shortBB.1.players.getD 1 defaultPlayer).bet = 3 ∧
    (shortBB.1.players.getD 1 defaultPlayer).stack = 0 ∧
    ((3 : Int) < 10) ∧
    shortBB.1.pot = 8 ∧
    shortBB.1.current_bet = 10 ∧
    shortBB.1.current_bet ≠ 3 := by
  decide

/-- C8 counterexample: from the preflop heads-up hand, the small blind's
all-in makes `_advance_action` settle the hand immediately — the phase
jumps to `FINISHED` although two non-folded seats exist and seat 1 (not
folded, not all-in, bet 10 versus `current_bet` 1000) still has a
pending call/fold decision.  The pot is even awarded before seat 1 ever
gets to act. -/
theorem C8_settlement_with_pending_decision :
    huHand.phase = GamePhase.preflop ∧
    huAllIn.2 = none ∧
    huAllIn.1.phase = GamePhase.finished ∧
    (huAllIn.1.players.filter (fun p => !p.has_folded)).length = 2 ∧
    (huAllIn.1.players.getD 1 defaultPlayer).has_folded = false ∧
    (huAllIn.1.players.getD 1 defaultPlayer).is_all_in = false ∧
    (huAllIn.1.players.getD 1 defaultPlayer).bet = 10 ∧
    huAllIn.1.current_bet = 1000 := by
  decide

/-- C9 counterexample: in the same all-in settlement the winning seat 0
is still flagged `is_all_in` but holds the awarded pot of 1010 chips, so
the claimed invariant `isAllIn ⇒ stack == 0` fails in a state reachable
by `start_new_hand` followed by one `process_action`. -/
theorem C9_all_in_winner_counterexample :
    huAllIn.2 = none ∧
    (huAllIn.1.players.getD 0 defaultPlayer).is_all_in = true ∧
    (huAllIn.1.players.getD 0 defaultPlayer).stack = 1010 ∧
    (huAllIn.1.players.getD 0 defaultPlayer).stack ≠ 0 := by
  decide

/-- C4: preflop, with no raise after the blinds (the completion index —
`last_raiser_index`, seeded by `start_new_hand` to the big-blind seat —
still points at the big blind), while the big blind has not yet taken a
voluntary action this street, `_is_betting_round_complete` is `False`,
whatever the bets are; posting the blind does not count because
`start_new_hand` resets `bb_has_acted_preflop` after posting. -/
theorem C4_bb_option (g : GameState)
    (hphase : g.phase = GamePhase.preflop)
    (hraiser : g.last_raiser_index = some ((g.dealer_position + 2) % g.players.length))
    (hacted : g.bb_has_acted_preflop = false)
    (hlive : 2 ≤ (g.players.filter livePlayer).length) :
    is_betting_round_complete g = false := by
  unfold is_betting_round_complete
  dsimp only
  rw [if_neg (by omega), if_neg (by omega)]
  split
  · rfl
  · rw [if_pos ⟨hphase, by rw [hraiser]; rfl, by rw [hacted]; rfl⟩]

/-- Witness for `C4_bb_option`: the heads-up hand right after the small
blind's call satisfies every hypothesis and the round is indeed open. -/
theorem C4_bb_option_witness :
    (huCall.1.phase = GamePhase.preflop ∧
     huCall.1.last_raiser_index =
       some ((huCall.1.dealer_position + 2) % huCall.1.players.length) ∧
     huCall.1.bb_has_acted_preflop = false ∧
     2 ≤ (huCall.1.players.filter livePlayer).length) ∧
    is_betting_round_complete huCall.1 = false :=
  ⟨⟨by decide, by decide, by decide, by decide⟩,
   C4_bb_option huCall.1 (by decide) (by decide) (by decide) (by decide)⟩

/-- The only `ValueError` `Deck.deal` raises. -/
theorem deckDeal_error_msg {cards : List Card} {n : Nat} {e : String}
    (h : deckDeal cards n = .error e) : e = "Not enough cards in deck" := by
  unfold deckDeal at h
  split at h
  · cases h; rfl
  · cases h

/-- The only error `_advance_phase` can surface is the deck one. -/
theorem advance_phase_error_msg {g : GameState} {e : String}
    (h : (advance_phase g).2 = some e) : e = "Not enough cards in deck" := by
  unfold advance_phase at h
  dsimp only at h
  split at h
  case _ => split at h
            · exact deckDeal_error_msg (by assumption) ▸ (by cases h; rfl)
            · cases h
  case _ => split at h
            · exact deckDeal_error_msg (by assumption) ▸ (by cases h; rfl)
            · cases h
  case _ => split at h
            · exact deckDeal_error_msg (by assumption) ▸ (by cases h; rfl)
            · cases h
  case _ => cases h
  case _ => cases h

/-- The only error `_advance_action` can surface is the deck one. -/
theorem advance_action_error_msg {g : GameState} {e : String}
    (h : (advance_action g).2 = some e) : e = "Not enough cards in deck" := by
  unfold advance_action at h
  dsimp only at h
  split at h
  · cases h
  · split at h
    · cases h
    · split at h
      · exact advance_phase_error_msg h
      · cases h

/-- The only error the post-action tail can surface is the deck one. -/
theorem recordAndAdvance_error_msg {g : GameState} {pid : Nat} {a : ActionType}
    {amount : Int} {e : String}
    (h : (recordAndAdvance g pid a amount).2 = some e) :
    e = "Not enough cards in deck" := by
  unfold recordAndAdvance at h
  exact advance_action_error_msg h

/-- The only error an accepted wager's tail can surface is the deck
one. -/
theorem applyWager_error_msg {g : GameState} {pid : Nat} {a : ActionType}
    {amount : Int} {i : Nat} {p : Player} {e : String}
    (h : (applyWager g pid a amount i p).2 = some e) :
    e = "Not enough cards in deck" := by
  unfold applyWager at h
  exact recordAndAdvance_error_msg h

/-- Validation errors of the `RAISE`/`BET` branch leave the state
untouched. -/
theorem processRaiseOrBet_error_unchanged {g : GameState} {pid : Nat} {a : ActionType}
    {amount : Int} {i : Nat} {p : Player} {e : String}
    (h : (processRaiseOrBet g pid a amount i p).2 = some e)
    (hne : e ≠ "Not enough cards in deck") :
    (processRaiseOrBet g pid a amount i p).1 = g := by
  unfold processRaiseOrBet at h ⊢
  dsimp only at h ⊢
  revert h
  split <;> (try split) <;> (try split) <;> (try split) <;> (try split) <;>
    intro h <;>
    first
      | rfl
      | exact absurd (applyWager_error_msg h) hne

/-- C7: every `process_action` call that raises one of the validation
errors of the claim (player lookup, acting while folded/inactive, or an
illegal fold/check/call/bet/raise — i.e. anything but the defensive,
unreachable-in-correct-play deck exhaustion) returns the state exactly
as it was: all validations run before the first mutation. -/
theorem C7_rejected_action_unchanged (g : GameState) (pid : Nat) (a : ActionType)
    (amount : Int) (e : String)
    (h : (process_action g pid a amount).2 = some e)
    (hne : e ≠ "Not enough cards in deck") :
    (process_action g pid a amount).1 = g := by
  unfold process_action at h ⊢
  dsimp only at h ⊢
  revert h
  split <;> (try split) <;> (try split) <;> (try split) <;> (try split) <;>
    intro h <;>
    first
      | rfl
      | exact absurd (recordAndAdvance_error_msg h) hne
      | exact processRaiseOrBet_error_unchanged h hne

/-- Witness for `C7_rejected_action_unchanged`: seat 1 checking while
owing chips is rejected with the check error and the heads-up raise
state is returned unchanged. -/
theorem C7_witness :
    (process_action huRaise20.1 1 ActionType.check 0).2 =
      some "Cannot check, must call or raise" ∧
    (process_action huRaise20.1 1 ActionType.check 0).1 = huRaise20.1 :=
  ⟨by decide,
   C7_rejected_action_unchanged huRaise20.1 1 ActionType.check 0
     "Cannot check, must call or raise" (by decide) (by decide)⟩

theorem sum_map_set (l : List Player) (i : Nat) (x : Player) (hi : i < l.length) :
    ((l.set i x).map Player.stack).sum =
      (l.map Player.stack).sum - (l.getD i defaultPlayer).stack + x.stack := by
  induction l generalizing i with
  | nil => simp at hi
  | cons a t ih =>
    cases i with
    | zero =>
      simp only [List.set_cons_zero, List.map_cons, List.sum_cons, List.getD_cons_zero]
      ring
    | succ n =>
      have hn : n < t.length := by simpa using hi
      have h2 := ih n hn
      simp only [List.set_cons_succ, List.map_cons, List.sum_cons, List.getD_cons_succ]
      omega

theorem stack_comp_reset :
    (Player.stack ∘ fun (p : Player) => { p with bet := 0 }) = Player.stack := by
  funext p
  rfl

theorem complete_hand_phase (g : GameState) :
    (complete_hand g).phase = GamePhase.finished := by
  unfold complete_hand
  split <;> rfl

theorem chipSum_complete_hand (g : GameState) :
    chipSum (complete_hand g) = chipSum g := by
  unfold complete_hand chipSum
  split
  · rfl
  next wi hfind =>
    obtain ⟨hlt, -, -⟩ := List.findIdx?_eq_some_iff_getElem.mp hfind
    dsimp only
    rw [sum_map_set _ _ _ hlt]
    dsimp only
    omega

theorem chipSum_advance_phase (g : GameState) :
    chipSum (advance_phase g).1 = chipSum g := by
  unfold advance_phase
  dsimp only
  split
  · split <;> simp [chipSum, List.map_map, stack_comp_reset]
  · split <;> simp [chipSum, List.map_map, stack_comp_reset]
  · split <;> simp [chipSum, List.map_map, stack_comp_reset]
  · rw [chipSum_complete_hand]
    simp [chipSum, List.map_map, stack_comp_reset]
  · simp [chipSum, List.map_map, stack_comp_reset]

theorem chipSum_advance_action (g : GameState) :
    chipSum (advance_action g).1 = chipSum g := by
  unfold advance_action
  dsimp only
  split
  · exact chipSum_complete_hand g
  · split
    · exact chipSum_complete_hand _
    · split
      · exact chipSum_advance_phase _
      · rfl

theorem chipSum_recordAndAdvance (g : GameState) (pid : Nat) (a : ActionType)
    (amount : Int) :
    chipSum (recordAndAdvance g pid a amount).1 = chipSum g := by
  unfold recordAndAdvance
  dsimp only
  split
  · split
    · exact chipSum_advance_action _
    · exact chipSum_advance_action _
  · exact chipSum_advance_action _

theorem applyWager_chipSum (g : GameState) (pid : Nat) (a : ActionType) (amount : Int)
    (i : Nat) (hlt : i < g.players.length) :
    chipSum (applyWager g pid a amount i (g.players.getD i defaultPlayer)).1 =
      chipSum g := by
  unfold applyWager
  dsimp only
  rw [chipSum_recordAndAdvance]
  unfold chipSum
  dsimp only
  split <;> dsimp only <;>
    rw [List.set_set, sum_map_set _ _ _ hlt] <;>
    split <;> dsimp only <;> omega

theorem processRaiseOrBet_chipSum (g : GameState) (pid : Nat) (a : ActionType)
    (amount : Int) (i : Nat) (hlt : i < g.players.length) :
    chipSum (processRaiseOrBet g pid a amount i (g.players.getD i defaultPlayer)).1 =
      chipSum g := by
  unfold processRaiseOrBet
  dsimp only
  split <;> (try split) <;> (try split) <;> (try split) <;> (try split) <;>
    first
      | rfl
      | exact applyWager_chipSum g pid a amount i hlt

theorem process_action_chipSum (g : GameState) (pid : Nat) (a : ActionType)
    (amount : Int) :
    chipSum (process_action g pid a amount).1 = chipSum g := by
  unfold process_action
  dsimp only
  split
  · rfl
  next i hfind =>
    obtain ⟨hlt, -, -⟩ := List.findIdx?_eq_some_iff_getElem.mp hfind
    split
    · rfl
    · split
      · -- fold
        split
        · rfl
        · rw [chipSum_recordAndAdvance]
          unfold chipSum
          dsimp only
          rw [sum_map_set _ _ _ hlt]
          dsimp only
          omega
      · -- check
        split
        · rfl
        · split
          · rfl
          · rw [chipSum_recordAndAdvance]
      · -- call
        split
        · rfl
        · rw [chipSum_recordAndAdvance]
          unfold chipSum
          dsimp only
          rw [sum_map_set _ _ _ hlt]
          split <;> dsimp only <;> omega
      · -- raise
        exact processRaiseOrBet_chipSum g pid _ amount i hlt
      · -- bet
        exact processRaiseOrBet_chipSum g pid _ amount i hlt
      · -- all_in
        rw [chipSum_recordAndAdvance]
        unfold chipSum
        split <;> (try dsimp only) <;> rw [sum_map_set _ _ _ hlt] <;>
          (try dsimp only) <;> omega

/-- C10: chip conservation.  Every `process_action` call — accepted or
rejected — preserves the sum of all stacks plus the pot; so does every
street transition (`_advance_phase`); and `_complete_hand` both preserves
the sum and, whenever a non-folded seat exists, moves the whole pot into
the winner's stack leaving the pot at 0. -/
theorem C10_chip_conservation :
    (∀ (g : GameState) (pid : Nat) (a : ActionType) (amount : Int),
        chipSum (process_action g pid a amount).1 = chipSum g) ∧
    (∀ g : GameState, chipSum (advance_phase g).1 = chipSum g) ∧
    (∀ g : GameState, (∃ p ∈ g.players, p.has_folded = false) →
        chipSum (complete_hand g) = chipSum g ∧ (complete_hand g).pot = 0) := by
  refine ⟨process_action_chipSum, chipSum_advance_phase, ?_⟩
  intro g hex
  refine ⟨chipSum_complete_hand g, ?_⟩
  unfold complete_hand
  split
  next hnone =>
    rw [List.findIdx?_eq_none_iff] at hnone
    obtain ⟨p, hp, hpf⟩ := hex
    have := hnone p hp
    simp [hpf] at this
  · rfl

/-- Witness for `C10_chip_conservation`: in the heads-up all-in hand the
sum 2000 is preserved by the action, and settling a pot with a non-folded
seat empties the pot. -/
theorem C10_chip_conservation_witness :
    chipSum (process_action huHand 0 ActionType.all_in 0).1 = chipSum huHand ∧
    ((∃ p ∈ huCall.1.players, p.has_folded = false) ∧
      chipSum (complete_hand huCall.1) = chipSum huCall.1 ∧
      (complete_hand huCall.1).pot = 0) :=
  ⟨C10_chip_conservation.1 huHand 0 ActionType.all_in 0,
   ⟨⟨huCall.1.players.getD 0 defaultPlayer, by decide, by decide⟩,
    C10_chip_conservation.2.2 huCall.1
      ⟨huCall.1.players.getD 0 defaultPlayer, by decide, by decide⟩⟩⟩

theorem getD_mem_or (l : List Player) (i : Nat) (d : Player) :
    l.getD i d ∈ l ∨ l.getD i d = d := by
  by_cases h : i < l.length
  · left
    rw [List.getD_eq_getElem?_getD, List.getElem?_eq_getElem h]
    exact List.getElem_mem h
  · right
    rw [List.getD_eq_getElem?_getD, List.getElem?_eq_none (by omega)]
    rfl

theorem getD_mem (l : List Player) (i : Nat) (d : Player) (h : i < l.length) :
    l.getD i d ∈ l := by
  rw [List.getD_eq_getElem?_getD, List.getElem?_eq_getElem h]
  exact List.getElem_mem h

theorem invPlayers_set (l : List Player) (i : Nat) (x : Player)
    (hl : invPlayers l) (hx : x.is_all_in = true → x.stack = 0) :
    invPlayers (l.set i x) := by
  intro q hq
  rcases List.mem_or_eq_of_mem_set hq with h | rfl
  · exact hl q h
  · exact hx

theorem invPlayers_resetBet (l : List Player) (hl : invPlayers l) :
    invPlayers (l.map fun (p : Player) => { p with bet := 0 }) := by
  intro q hq
  obtain ⟨p, hp, rfl⟩ := List.mem_map.mp hq
  exact hl p hp

theorem invPlayers_advance_phase (g : GameState)
    (hfin : (advance_phase g).1.phase ≠ GamePhase.finished)
    (hl : invPlayers g.players) : invPlayers (advance_phase g).1.players := by
  unfold advance_phase at hfin ⊢
  dsimp only at hfin ⊢
  revert hfin
  split
  · split <;> intro _ <;> exact invPlayers_resetBet _ hl
  · split <;> intro _ <;> exact invPlayers_resetBet _ hl
  · split <;> intro _ <;> exact invPlayers_resetBet _ hl
  · intro hfin; exact absurd (complete_hand_phase _) hfin
  · intro _; exact invPlayers_resetBet _ hl

theorem invPlayers_advance_action (g : GameState)
    (hfin : (advance_action g).1.phase ≠ GamePhase.finished)
    (hl : invPlayers g.players) : invPlayers (advance_action g).1.players := by
  unfold advance_action at hfin ⊢
  dsimp only at hfin ⊢
  revert hfin
  split
  · intro hfin; exact absurd (complete_hand_phase _) hfin
  · split
    · intro hfin; exact absurd (complete_hand_phase _) hfin
    · split
      · intro hfin; exact invPlayers_advance_phase _ hfin hl
      · intro _; exact hl

theorem invPlayers_recordAndAdvance (g : GameState) (pid : Nat) (a : ActionType)
    (amount : Int)
    (hfin : (recordAndAdvance g pid a amount).1.phase ≠ GamePhase.finished)
    (hl : invPlayers g.players) :
    invPlayers (recordAndAdvance g pid a amount).1.players := by
  unfold recordAndAdvance at hfin ⊢
  dsimp only at hfin ⊢
  revert hfin
  split
  · split
    · intro hfin; exact invPlayers_advance_action _ hfin hl
    · intro hfin; exact invPlayers_advance_action _ hfin hl
  · intro hfin; exact invPlayers_advance_action _ hfin hl

theorem invPlayers_applyWager (g : GameState) (pid : Nat) (a : ActionType)
    (amount : Int) (i : Nat) (hlt : i < g.players.length) (hamt : 0 ≤ amount)
    (hfin : (applyWager g pid a amount i (g.players.getD i defaultPlayer)).1.phase ≠
      GamePhase.finished)
    (hl : invPlayers g.players) :
    invPlayers (applyWager g pid a amount i (g.players.getD i defaultPlayer)).1.players := by
  have hmem := getD_mem g.players i defaultPlayer hlt
  unfold applyWager at hfin ⊢
  dsimp only at hfin ⊢
  revert hfin
  split <;> intro hfin <;>
    refine invPlayers_recordAndAdvance _ _ _ _ hfin ?_ <;>
    rw [List.set_set] <;>
    refine invPlayers_set _ _ _ hl ?_ <;>
    intro hall <;> revert hall <;> split <;> intro hall <;>
    (try dsimp only at hall ⊢) <;>
    first
      | omega
      | (have h0 := hl _ hmem hall; omega)

theorem invPlayers_processRaiseOrBet (g : GameState) (pid : Nat) (a : ActionType)
    (amount : Int) (i : Nat) (hlt : i < g.players.length) (hbb : 0 < g.big_blind)
    (hfin : (processRaiseOrBet g pid a amount i (g.players.getD i defaultPlayer)).1.phase ≠
      GamePhase.finished)
    (hl : invPlayers g.players) :
    invPlayers
      (processRaiseOrBet g pid a amount i (g.players.getD i defaultPlayer)).1.players := by
  unfold processRaiseOrBet at hfin ⊢
  dsimp only at hfin ⊢
  revert hfin
  split
  · intro _; exact hl
  · split
    · intro _; exact hl
    · split
      · split
        · split
          · intro _; exact hl
          · intro hfin
            refine invPlayers_applyWager g pid a amount i hlt ?_ hfin hl
            have h2 := le_max_right (g.current_bet + g.last_raise_size) (g.current_bet * 2)
            omega
        · split
          · intro _; exact hl
          · intro hfin
            refine invPlayers_applyWager g pid a amount i hlt ?_ hfin hl
            have h2 := le_max_right (g.current_bet + g.big_blind) (g.current_bet * 2)
            omega
      · split
        · intro _; exact hl
        · intro hfin
          refine invPlayers_applyWager g pid a amount i hlt ?_ hfin hl
          omega

theorem reset_all_in_false (l : List Player) :
    ∀ p ∈ l.map reset_for_new_hand, p.is_all_in = false := by
  intro q hq
  obtain ⟨p, hp, rfl⟩ := List.mem_map.mp hq
  rfl

theorem all_in_false_set (l : List Player) (i : Nat) (x : Player)
    (h : ∀ p ∈ l, p.is_all_in = false) (hx : x.is_all_in = false) :
    ∀ p ∈ l.set i x, p.is_all_in = false := by
  intro q hq
  rcases List.mem_or_eq_of_mem_set hq with h' | rfl
  exacts [h q h', hx]

theorem all_in_false_getD (l : List Player) (i : Nat)
    (h : ∀ p ∈ l, p.is_all_in = false) :
    (l.getD i defaultPlayer).is_all_in = false := by
  rcases getD_mem_or l i defaultPlayer with hm | he
  · exact h _ hm
  · rw [he]; rfl

theorem post_blinds_all_in_false (g : GameState)
    (h : ∀ p ∈ g.players, p.is_all_in = false) :
    ∀ p ∈ (post_blinds g).players, p.is_all_in = false := by
  unfold post_blinds
  dsimp only
  split
  · exact h
  · refine all_in_false_set _ _ _ (all_in_false_set _ _ _ h ?_) ?_
    · exact all_in_false_getD _ _ h
    · exact all_in_false_getD _ _ (all_in_false_set _ _ _ h (all_in_false_getD _ _ h))

theorem dealHole_all_in_false (ps : List Player) :
    ∀ (d : List Card), (∀ p ∈ ps, p.is_all_in = false) →
      ∀ p ∈ (dealHoleLoop ps d).1, p.is_all_in = false := by
  induction ps with
  | nil =>
    intro d _ q hq
    simp [dealHoleLoop] at hq
  | cons a t ih =>
    intro d h q hq
    unfold dealHoleLoop at hq
    revert hq
    split
    · split
      · intro hq
        exact h q hq
      · intro hq
        rcases List.mem_cons.mp hq with rfl | hq'
        · exact h a (List.mem_cons_self a t)
        · exact ih _ (fun p hp => h p (List.mem_cons_of_mem _ hp)) q hq'
    · intro hq
      rcases List.mem_cons.mp hq with rfl | hq'
      · exact h _ (List.mem_cons_self _ _)
      · exact ih _ (fun p hp => h p (List.mem_cons_of_mem _ hp)) q hq'

theorem start_new_hand_allInInv (g : GameState) (shuffled : List Card)
    (h2 : 2 ≤ g.players.length) : allInInv (start_new_hand g shuffled).1 := by
  unfold start_new_hand
  dsimp only
  split
  · next hlt => exact absurd hlt (by omega)
  · have hfalse :
        ∀ p ∈ (dealHoleLoop (post_blinds
          { g with players := g.players.map reset_for_new_hand, deck := shuffled,
                   community_cards := [], pot := 0, current_bet := 0,
                   phase := GamePhase.preflop, action_history := [],
                   dealer_position :=
                     (g.dealer_position + 1) % (g.players.map reset_for_new_hand).length
          }).players (post_blinds
          { g with players := g.players.map reset_for_new_hand, deck := shuffled,
                   community_cards := [], pot := 0, current_bet := 0,
                   phase := GamePhase.preflop, action_history := [],
                   dealer_position :=
                     (g.dealer_position + 1) % (g.players.map reset_for_new_hand).length
          }).deck).1, p.is_all_in = false := by
      refine dealHole_all_in_false _ _ ?_
      exact post_blinds_all_in_false _ (reset_all_in_false g.players)
    split <;>
      intro q hq hT <;>
      rw [hfalse q hq] at hT <;>
      cases hT

theorem process_action_allInInv (g : GameState) (pid : Nat) (a : ActionType)
    (amount : Int) (hinv : allInInv g) (hbets : allInBetsMatched g)
    (hbb : 0 < g.big_blind)
    (hfin : (process_action g pid a amount).1.phase ≠ GamePhase.finished) :
    allInInv (process_action g pid a amount).1 := by
  unfold process_action at hfin ⊢
  dsimp only at hfin ⊢
  revert hfin
  split
  · intro _; exact hinv
  next i hfind =>
    obtain ⟨hlt, -, -⟩ := List.findIdx?_eq_some_iff_getElem.mp hfind
    have hmem := getD_mem g.players i defaultPlayer hlt
    split
    · intro _; exact hinv
    · split
      · -- fold
        split
        · intro _; exact hinv
        · intro hfin
          refine invPlayers_recordAndAdvance _ _ _ _ hfin ?_
          refine invPlayers_set _ _ _ hinv ?_
          intro hall
          exact hinv (g.players.getD i defaultPlayer) hmem hall
      · -- check
        split
        · intro _; exact hinv
        · split
          · intro _; exact hinv
          · intro hfin
            exact invPlayers_recordAndAdvance _ _ _ _ hfin hinv
      · -- call
        split
        · intro _; exact hinv
        · intro hfin
          refine invPlayers_recordAndAdvance _ _ _ _ hfin ?_
          refine invPlayers_set _ _ _ hinv ?_
          intro hall
          revert hall
          split <;> intro hall <;> (try dsimp only at hall ⊢)
          · omega
          · have h0 := hinv _ hmem hall
            have h1 := hbets _ hmem hall
            omega
      · -- raise
        intro hfin
        exact invPlayers_processRaiseOrBet g pid _ amount i hlt hbb hfin hinv
      · -- bet
        intro hfin
        exact invPlayers_processRaiseOrBet g pid _ amount i hlt hbb hfin hinv
      · -- all_in
        intro hfin
        refine invPlayers_recordAndAdvance _ _ _ _ hfin ?_
        split <;> refine invPlayers_set _ _ _ hinv ?_ <;> intro _ <;> rfl

/-- C9 (amended): the invariant `isAllIn ⇒ stack == 0` is established
unconditionally by any `start_new_hand` call on a table of at least 2
seats — whatever the starting state, including the broken
post-settlement ones, since every seat's flag is reset (a call with
fewer seats raises and changes nothing) — and preserved by every
`process_action` call that does not settle the hand, under the side
conditions (true in every reachable betting state) that all-in seats
have bets at most `current_bet` and the big blind is positive.
Settlement itself can break the invariant: see
`C9_all_in_winner_counterexample`, where the winning all-in seat keeps
the flag with the awarded pot in its stack; the next `start_new_hand`
restores it. -/
theorem C9_invariant_amended :
    ∀ (g : GameState) (shuffled : List Card) (pid : Nat) (a : ActionType)
      (amount : Int),
      (2 ≤ g.players.length → allInInv (start_new_hand g shuffled).1) ∧
      (allInInv g → allInBetsMatched g → 0 < g.big_blind →
        (process_action g pid a amount).1.phase ≠ GamePhase.finished →
        allInInv (process_action g pid a amount).1) :=
  fun g shuffled pid a amount =>
    ⟨fun h => start_new_hand_allInInv g shuffled h,
     fun h1 h2 h3 h4 => process_action_allInInv g pid a amount h1 h2 h3 h4⟩

/-- Witness for `C9_invariant_amended`: the establishment part is
instantiated at the broken post-settlement state itself — `huAllIn.1`
violates the invariant, yet starting the next hand from it restores it —
and the preservation part at the small blind's preflop call. -/
theorem C9_invariant_amended_witness :
    (¬allInInv huAllIn.1 ∧ 2 ≤ huAllIn.1.players.length ∧
      allInInv (start_new_hand huAllIn.1 fullDeck).1) ∧
    (allInInv huHand ∧ allInBetsMatched huHand ∧ (0 : Int) < huHand.big_blind ∧
      (process_action huHand 0 ActionType.call 0).1.phase ≠ GamePhase.finished ∧
      allInInv (process_action huHand 0 ActionType.call 0).1) :=
  ⟨⟨by decide, by decide,
    (C9_invariant_amended huAllIn.1 fullDeck 0 ActionType.call 0).1 (by decide)⟩,
   ⟨by decide, by decide, by decide, by decide,
    (C9_invariant_amended huHand fullDeck 0 ActionType.call 0).2
      (by decide) (by decide) (by decide) (by decide)⟩⟩

theorem livePlayer_true_iff (p : Player) :
    livePlayer p = true ↔ (p.has_folded = false ∧ p.is_all_in = false) := by
  unfold livePlayer
  cases p.has_folded <;> cases p.is_all_in <;> simp

theorem livePlayer_false_iff (p : Player) :
    livePlayer p = false ↔ (p.has_folded = true ∨ p.is_all_in = true) := by
  unfold livePlayer
  cases p.has_folded <;> cases p.is_all_in <;> simp

/-- Trace of the `_advance_action` skip loop: if the first `k` seats
clockwise from `idx` are folded/all-in and the `k`-th is live, the loop
stops exactly there with `k` more attempts. -/
theorem skipLoop_trace (ps : List Player) :
    ∀ (k idx a fuel : Nat), idx < ps.length → k + 1 ≤ fuel → a + k ≤ ps.length →
      (∀ m, m < k → livePlayer (ps.getD ((idx + m) % ps.length) defaultPlayer) = false) →
      livePlayer (ps.getD ((idx + k) % ps.length) defaultPlayer) = true →
      skipLoop ps idx a fuel = ((idx + k) % ps.length, a + k) := by
  intro k
  induction k with
  | zero =>
    intro idx a fuel hidx hfuel ha hskip hlive
    obtain ⟨f, rfl⟩ : ∃ f, fuel = f + 1 := ⟨fuel - 1, by omega⟩
    have hmod : (idx + 0) % ps.length = idx := by
      rw [Nat.add_zero, Nat.mod_eq_of_lt hidx]
    rw [hmod] at hlive
    obtain ⟨hf, hai⟩ := (livePlayer_true_iff _).mp hlive
    simp only [skipLoop]
    split
    · next hcond =>
      exfalso
      rcases hcond.1 with hc | hc
      · rw [hf] at hc; cases hc
      · rw [hai] at hc; cases hc
    · rw [hmod, Nat.add_zero]
  | succ k ih =>
    intro idx a fuel hidx hfuel ha hskip hlive
    obtain ⟨f, rfl⟩ : ∃ f, fuel = f + 1 := ⟨fuel - 1, by omega⟩
    have hlen : 0 < ps.length := by omega
    have hidx' : (idx + 1) % ps.length < ps.length := Nat.mod_lt _ hlen
    have hstep : ∀ m, m < k →
        livePlayer (ps.getD (((idx + 1) % ps.length + m) % ps.length) defaultPlayer)
          = false := by
      intro m hm
      rw [Nat.mod_add_mod]
      have h2 := hskip (m + 1) (by omega)
      rw [show idx + (m + 1) = idx + 1 + m by omega] at h2
      exact h2
    have hlast :
        livePlayer (ps.getD (((idx + 1) % ps.length + k) % ps.length) defaultPlayer)
          = true := by
      rw [Nat.mod_add_mod]
      rw [show idx + 1 + k = idx + (k + 1) by omega]
      exact hlive
    have hrec := ih ((idx + 1) % ps.length) (a + 1) f hidx' (by omega) (by omega)
      hstep hlast
    have h0 := hskip 0 (by omega)
    rw [Nat.add_zero, Nat.mod_eq_of_lt hidx] at h0
    simp only [skipLoop]
    split
    · rw [hrec, Nat.mod_add_mod]
      rw [show idx + 1 + k = idx + (k + 1) by omega,
          show a + 1 + k = a + (k + 1) by omega]
    · next hcond =>
      exfalso
      exact hcond ⟨(livePlayer_false_iff _).mp h0, by omega⟩

theorem exists_live_of_liveCount (ps : List Player) (h : 1 ≤ liveCount ps) :
    ∃ j, j < ps.length ∧ livePlayer (ps.getD j defaultPlayer) = true := by
  unfold liveCount at h
  have hpos : 0 < (ps.filter livePlayer).length := by omega
  obtain ⟨q, hq⟩ := List.exists_mem_of_length_pos hpos
  have hq' := List.mem_filter.mp hq
  obtain ⟨j, hj, hEq⟩ := List.mem_iff_getElem.mp hq'.1
  refine ⟨j, hj, ?_⟩
  rw [List.getD_eq_getElem?_getD, List.getElem?_eq_getElem hj]
  simpa [hEq] using hq'.2

theorem exists_live_offset (ps : List Player) (idx : Nat) (hidx : idx < ps.length)
    (h : 1 ≤ liveCount ps) :
    ∃ m, m < ps.length ∧
      livePlayer (ps.getD ((idx + m) % ps.length) defaultPlayer) = true := by
  obtain ⟨j, hj, hlive⟩ := exists_live_of_liveCount ps h
  refine ⟨(ps.length + j - idx) % ps.length, Nat.mod_lt _ (by omega), ?_⟩
  rw [Nat.add_mod_mod]
  rw [show idx + (ps.length + j - idx) = ps.length + j by omega]
  rw [Nat.add_mod_left]
  rw [Nat.mod_eq_of_lt hj]
  exact hlive

/-- With at least one live seat, the skip loop of `_advance_action`
always stops before exhausting its `attempts < len` bound, on a live
seat. -/
theorem skipLoop_stops (ps : List Player) (idx : Nat) (hidx : idx < ps.length)
    (h : 1 ≤ liveCount ps) :
    (skipLoop ps idx 0 (ps.length + 1)).2 < ps.length ∧
    livePlayer (ps.getD (skipLoop ps idx 0 (ps.length + 1)).1 defaultPlayer) = true := by
  obtain ⟨m0, hm0lt, hm0⟩ := exists_live_offset ps idx hidx h
  have hPex : ∃ m, livePlayer (ps.getD ((idx + m) % ps.length) defaultPlayer) = true :=
    ⟨m0, hm0⟩
  have hk := Nat.find_spec hPex
  have hkle : Nat.find hPex ≤ m0 := Nat.find_min' hPex hm0
  have hklt : Nat.find hPex < ps.length := by omega
  have htr := skipLoop_trace ps (Nat.find hPex) idx 0 (ps.length + 1) hidx
    (by omega) (by omega) ?_ hk
  · rw [htr]
    exact ⟨by omega, hk⟩
  · intro m hm
    have hnm := Nat.find_min hPex hm
    revert hnm
    cases livePlayer (ps.getD ((idx + m) % ps.length) defaultPlayer) <;> simp

theorem length_filter_set (l : List Player) (i : Nat) (x : Player)
    (h : livePlayer x = livePlayer (l.getD i defaultPlayer)) :
    ((l.set i x).filter livePlayer).length = (l.filter livePlayer).length := by
  induction l generalizing i with
  | nil => simp
  | cons a t ih =>
    cases i with
    | zero =>
      rw [List.getD_cons_zero] at h
      simp only [List.set_cons_zero, List.filter_cons, h]
      split <;> simp
    | succ n =>
      rw [List.getD_cons_succ] at h
      simp only [List.set_cons_succ, List.filter_cons]
      split <;> simp [ih n h]

theorem liveCount_complete_hand (g : GameState) :
    liveCount (complete_hand g).players = liveCount g.players := by
  unfold complete_hand
  split
  · rfl
  · dsimp only
    unfold liveCount
    exact length_filter_set _ _ _ rfl

theorem liveCount_resetBet (l : List Player) :
    liveCount (l.map fun (p : Player) => { p with bet := 0 }) = liveCount l := by
  unfold liveCount
  rw [List.filter_map, List.length_map]
  have hfn : (livePlayer ∘ fun (p : Player) => { p with bet := 0 }) = livePlayer :=
    funext fun p => rfl
  rw [hfn]

theorem liveCount_advance_phase (g : GameState) :
    liveCount (advance_phase g).1.players = liveCount g.players := by
  unfold advance_phase
  dsimp only
  split
  · split <;> exact liveCount_resetBet _
  · split <;> exact liveCount_resetBet _
  · split <;> exact liveCount_resetBet _
  · rw [liveCount_complete_hand]
    exact liveCount_resetBet _
  · exact liveCount_resetBet _

theorem liveCount_advance_action (g : GameState) :
    liveCount (advance_action g).1.players = liveCount g.players := by
  unfold advance_action
  dsimp only
  split
  · exact liveCount_complete_hand g
  · split
    · exact liveCount_complete_hand _
    · split
      · exact liveCount_advance_phase _
      · rfl

theorem liveCount_recordAndAdvance (g : GameState) (pid : Nat) (a : ActionType)
    (amount : Int) :
    liveCount (recordAndAdvance g pid a amount).1.players = liveCount g.players := by
  unfold recordAndAdvance
  dsimp only
  split
  · split <;> exact liveCount_advance_action _
  · exact liveCount_advance_action _

theorem advance_phase_finished (g : GameState)
    (hfin : (advance_phase g).1.phase = GamePhase.finished) :
    g.phase = GamePhase.river ∨ g.phase = GamePhase.finished := by
  unfold advance_phase at hfin
  dsimp only at hfin
  revert hfin
  split
  · split <;> intro hfin <;> simp at hfin
  · split <;> intro hfin <;> simp at hfin
  · split <;> intro hfin <;> simp at hfin
  · next heq => intro _; exact Or.inl heq
  · intro hfin
    exact Or.inr hfin

theorem advance_action_finished (g : GameState)
    (hfin : (advance_action g).1.phase = GamePhase.finished) :
    liveCount g.players ≤ 1 ∨ g.phase = GamePhase.river ∨
      g.phase = GamePhase.finished := by
  unfold advance_action at hfin
  dsimp only at hfin
  revert hfin
  split
  · next hle =>
    intro _
    left
    unfold liveCount
    omega
  · next hgt =>
    split
    · next hatt =>
      intro _
      exfalso
      have hle := List.length_filter_le livePlayer g.players
      have hlen : 0 < g.players.length := by omega
      have hidx : (g.current_player_index + 1) % g.players.length < g.players.length :=
        Nat.mod_lt _ hlen
      have hstop := (skipLoop_stops g.players _ hidx (by unfold liveCount; omega)).1
      omega
    · split
      · intro hfin
        rcases advance_phase_finished _ hfin with h | h
        · exact Or.inr (Or.inl h)
        · exact Or.inr (Or.inr h)
      · intro hfin
        exact Or.inr (Or.inr hfin)

theorem recordAndAdvance_finished (g : GameState) (pid : Nat) (a : ActionType)
    (amount : Int)
    (hfin : (recordAndAdvance g pid a amount).1.phase = GamePhase.finished) :
    liveCount g.players ≤ 1 ∨ g.phase = GamePhase.river ∨
      g.phase = GamePhase.finished := by
  unfold recordAndAdvance at hfin
  dsimp only at hfin
  revert hfin
  split
  · split <;> intro hfin <;> (have h2 := advance_action_finished _ hfin; exact h2)
  · intro hfin
    have h2 := advance_action_finished _ hfin
    exact h2

theorem active_ne_finished (ph : GamePhase)
    (hactive : ph = GamePhase.preflop ∨ ph = GamePhase.flop ∨
      ph = GamePhase.turn ∨ ph = GamePhase.river) :
    ph ≠ GamePhase.finished := by
  rcases hactive with h | h | h | h <;> subst h <;> decide

theorem settlement_route_aux (gX : GameState) (pid : Nat) (a : ActionType)
    (amount : Int) (ph0 : GamePhase) (hph : gX.phase = ph0)
    (hactive : ph0 = GamePhase.preflop ∨ ph0 = GamePhase.flop ∨
      ph0 = GamePhase.turn ∨ ph0 = GamePhase.river)
    (hfin : (recordAndAdvance gX pid a amount).1.phase = GamePhase.finished) :
    ph0 = GamePhase.river ∨
      liveCount (recordAndAdvance gX pid a amount).1.players ≤ 1 := by
  rcases recordAndAdvance_finished gX pid a amount hfin with h | h | h
  · right
    rw [liveCount_recordAndAdvance]
    exact h
  · left
    rw [← hph]
    exact h
  · exact absurd (hph ▸ h) (active_ne_finished ph0 hactive)

theorem processRaiseOrBet_finished_route (g : GameState) (pid : Nat) (a : ActionType)
    (amount : Int) (i : Nat) (p : Player)
    (hactive : g.phase = GamePhase.preflop ∨ g.phase = GamePhase.flop ∨
      g.phase = GamePhase.turn ∨ g.phase = GamePhase.river)
    (hfin : (processRaiseOrBet g pid a amount i p).1.phase = GamePhase.finished) :
    g.phase = GamePhase.river ∨
      liveCount (processRaiseOrBet g pid a amount i p).1.players ≤ 1 := by
  unfold processRaiseOrBet applyWager at hfin ⊢
  dsimp only at hfin ⊢
  revert hfin
  split <;> (try split) <;> (try split) <;> (try split) <;> (try split) <;>
    (try split) <;> intro hfin <;>
    first
      | exact absurd hfin (active_ne_finished _ hactive)
      | exact settlement_route_aux _ pid _ amount g.phase rfl hactive hfin

/-- C8 (amended): starting from an active betting phase, a
`process_action` call reaches settlement (`FINISHED`) only when the hand
was already on the river, or when at most one seat that is neither
folded nor all-in remains in the resulting state.  The second route does
NOT require at most one non-folded seat: `_advance_action` settles as
soon as at most one non-all-in live seat remains, even while another
non-folded seat still faces an unmatched bet
(`C8_settlement_with_pending_decision`). -/
theorem C8_settlement_routes_amended (g : GameState) (pid : Nat) (a : ActionType)
    (amount : Int)
    (hactive : g.phase = GamePhase.preflop ∨ g.phase = GamePhase.flop ∨
      g.phase = GamePhase.turn ∨ g.phase = GamePhase.river)
    (hfin : (process_action g pid a amount).1.phase = GamePhase.finished) :
    g.phase = GamePhase.river ∨
      liveCount (process_action g pid a amount).1.players ≤ 1 := by
  unfold process_action at hfin ⊢
  dsimp only at hfin ⊢
  revert hfin
  split
  · intro hfin
    exact absurd hfin (active_ne_finished _ hactive)
  · split
    · intro hfin
      exact absurd hfin (active_ne_finished _ hactive)
    · split
      · -- fold
        split <;> intro hfin <;>
          first
            | exact absurd hfin (active_ne_finished _ hactive)
            | exact settlement_route_aux _ pid _ amount g.phase rfl hactive hfin
      · -- check
        split <;> (try split) <;> intro hfin <;>
          first
            | exact absurd hfin (active_ne_finished _ hactive)
            | exact settlement_route_aux _ pid _ amount g.phase rfl hactive hfin
      · -- call
        split <;> (try split) <;> intro hfin <;>
          first
            | exact absurd hfin (active_ne_finished _ hactive)
            | exact settlement_route_aux _ pid _ amount g.phase rfl hactive hfin
      · -- raise
        intro hfin
        exact processRaiseOrBet_finished_route g pid _ amount _ _ hactive hfin
      · -- bet
        intro hfin
        exact processRaiseOrBet_finished_route g pid _ amount _ _ hactive hfin
      · -- all_in
        split <;> intro hfin <;>
          exact settlement_route_aux _ pid _ amount g.phase rfl hactive hfin

/-- Witness for `C8_settlement_routes_amended`: the heads-up preflop
all-in settles immediately with a single live seat remaining. -/
theorem C8_settlement_routes_witness :
    ((huHand.phase = GamePhase.preflop ∨ huHand.phase = GamePhase.flop ∨
        huHand.phase = GamePhase.turn ∨ huHand.phase = GamePhase.river) ∧
      (process_action huHand 0 ActionType.all_in 0).1.phase = GamePhase.finished) ∧
    (huHand.phase = GamePhase.river ∨
      liveCount (process_action huHand 0 ActionType.all_in 0).1.players ≤ 1) :=
  ⟨⟨Or.inl (by decide), by decide⟩,
   C8_settlement_routes_amended huHand 0 ActionType.all_in 0
     (Or.inl (by decide)) (by decide)⟩

theorem mod_succ_ne (n x : Nat) (h : 2 ≤ n) : x % n ≠ (x + 1) % n := by
  have hr : x % n < n := Nat.mod_lt _ (by omega)
  rw [Nat.add_mod]
  rw [Nat.mod_eq_of_lt (show 1 < n by omega)]
  intro hc
  by_cases hlt : x % n + 1 < n
  · rw [Nat.mod_eq_of_lt hlt] at hc
    omega
  · have hn : x % n + 1 = n := by omega
    rw [hn, Nat.mod_self] at hc
    omega

theorem getD_set_ne (l : List Player) (i j : Nat) (x : Player) (h : i ≠ j) :
    (l.set i x).getD j defaultPlayer = l.getD j defaultPlayer := by
  rw [List.getD_eq_getElem?_getD, List.getD_eq_getElem?_getD, List.getElem?_set_ne h]

theorem getD_map_reset (l : List Player) (i : Nat) (hi : i < l.length) :
    ((l.map reset_for_new_hand).getD i defaultPlayer).stack =
      (l.getD i defaultPlayer).stack := by
  rw [List.getD_eq_getElem?_getD, List.getD_eq_getElem?_getD, List.getElem?_map,
      List.getElem?_eq_getElem hi]
  rfl

theorem reset_active (l : List Player) (h : ∀ p ∈ l, 0 < p.stack) :
    ∀ p ∈ l.map reset_for_new_hand, p.is_active = true := by
  intro q hq
  obtain ⟨p, hp, rfl⟩ := List.mem_map.mp hq
  unfold reset_for_new_hand
  dsimp only
  rw [if_pos (h p hp)]

theorem post_blinds_players_length (g : GameState) :
    (post_blinds g).players.length = g.players.length := by
  unfold post_blinds
  dsimp only
  split
  · rfl
  · simp [List.length_set]

theorem post_blinds_deck (g : GameState) : (post_blinds g).deck = g.deck := by
  unfold post_blinds
  dsimp only
  split <;> rfl

theorem post_blinds_pot (g : GameState) (h2 : 2 ≤ g.players.length)
    (hactive : ∀ p ∈ g.players, p.is_active = true) :
    (post_blinds g).pot = g.pot +
      min g.small_blind
        ((g.players.getD ((g.dealer_position + 1) % g.players.length) defaultPlayer).stack) +
      min g.big_blind
        ((g.players.getD ((g.dealer_position + 2) % g.players.length) defaultPlayer).stack) := by
  unfold post_blinds
  dsimp only
  rw [if_neg (by rw [List.filter_eq_self.mpr hactive]; omega)]
  dsimp only
  rw [getD_set_ne _ _ _ _ (mod_succ_ne g.players.length (g.dealer_position + 1) h2)]

theorem post_blinds_current_bet (g : GameState) (h2 : 2 ≤ g.players.length)
    (hactive : ∀ p ∈ g.players, p.is_active = true) :
    (post_blinds g).current_bet = g.big_blind := by
  unfold post_blinds
  dsimp only
  rw [if_neg (by rw [List.filter_eq_self.mpr hactive]; omega)]

theorem dealHoleLoop_no_error (ps : List Player) :
    ∀ d : List Card, 2 * ps.length ≤ d.length → (dealHoleLoop ps d).2.2 = none := by
  induction ps with
  | nil => intro d _; rfl
  | cons a t ih =>
    intro d hd
    simp only [List.length_cons] at hd
    unfold dealHoleLoop
    dsimp only
    split
    · split
      · next heq =>
        exfalso
        unfold deckDeal at heq
        split at heq
        · next hgt => omega
        · cases heq
      · next cs d' heq =>
        dsimp only
        unfold deckDeal at heq
        split at heq
        · cases heq
        · cases heq
          apply ih
          rw [List.length_drop]
          omega
    · dsimp only
      apply ih
      omega

/-- C6 (amended): for every table of 2–9 seats all holding chips, after
`start_new_hand` the pot equals the small blind posted plus the big
blind posted (each capped at the seat's stack), but `current_bet` is
always set to the full big blind, even when the big blind posted short
(`C6_short_bb_counterexample`). -/
theorem C6_blinds_amended (g : GameState) (shuffled : List Card)
    (h2 : 2 ≤ g.players.length) (h9 : g.players.length ≤ 9)
    (hstacks : ∀ p ∈ g.players, 0 < p.stack)
    (hdeck : 2 * g.players.length ≤ shuffled.length) :
    (start_new_hand g shuffled).2 = none ∧
    (start_new_hand g shuffled).1.pot = sbPosted g + bbPosted g ∧
    (start_new_hand g shuffled).1.current_bet = g.big_blind := by
  have hlen0 : 0 < g.players.length := by omega
  unfold start_new_hand
  dsimp only
  rw [if_neg (by omega)]
  split
  · next e heq =>
    exfalso
    rw [dealHoleLoop_no_error _ _ ?hb] at heq
    · cases heq
    case hb =>
      rw [post_blinds_players_length, post_blinds_deck]
      dsimp only
      rw [List.length_map]
      exact hdeck
  · next heq =>
    refine ⟨rfl, ?_, ?_⟩
    · show (post_blinds _).pot = _
      rw [post_blinds_pot _ ?h2c ?hac]
      case h2c =>
        dsimp only
        rw [List.length_map]
        exact h2
      case hac =>
        dsimp only
        exact reset_active g.players hstacks
      dsimp only
      rw [List.length_map]
      unfold sbPosted bbPosted sbIndex bbIndex newDealer
      rw [getD_map_reset _ _ (Nat.mod_lt _ hlen0),
          getD_map_reset _ _ (Nat.mod_lt _ hlen0)]
      omega
    · show (post_blinds _).current_bet = _
      rw [post_blinds_current_bet _ ?h2d ?had]
      case h2d =>
        dsimp only
        rw [List.length_map]
        exact h2
      case had =>
        dsimp only
        exact reset_active g.players hstacks

/-- Witness for `C6_blinds_amended`: the 2-seat table with stacks 1000
and 3 satisfies the hypotheses, and the conclusion yields pot 8 with
`current_bet` 10. -/
theorem C6_blinds_amended_witness :
    (2 ≤ (initialGame 5 10 [1000, 3]).players.length ∧
     (initialGame 5 10 [1000, 3]).players.length ≤ 9 ∧
     (∀ p ∈ (initialGame 5 10 [1000, 3]).players, 0 < p.stack) ∧
     2 * (initialGame 5 10 [1000, 3]).players.length ≤ fullDeck.length) ∧
    (shortBB.2 = none ∧
     shortBB.1.pot = sbPosted (initialGame 5 10 [1000, 3]) +
       bbPosted (initialGame 5 10 [1000, 3]) ∧
     shortBB.1.current_bet = (initialGame 5 10 [1000, 3]).big_blind) :=
  ⟨⟨by decide, by decide, by decide, by decide⟩,
   C6_blinds_amended (initialGame 5 10 [1000, 3]) fullDeck
     (by decide) (by decide) (by decide) (by decide)⟩

end PokerTrainer
